import Mathlib

/-!
Verification development for the auditry request/response observability
middleware. The Python sources under `src/auditry` are shallowly embedded:
pure functions become Lean functions, the per-request `dispatch` pipeline
becomes a function from the request, the handler outcome and ambient inputs
to the emitted log records and the returned-or-raised result. Machine-level
collaborators from the Python standard library (`json.loads`, `re`) are
modelled as a function parameter (for JSON decoding) and as an executable
regular-expression engine covering exactly the regex fragment the middleware
constructs. Modules of the repository that are imported by the sources but
absent from the tree (`models.py`, `redaction.py`, `correlation.py`) are
modelled from the specification and marked as such.
-/

/-! ## Bytes and UTF-8 decoding with replacement

Model of Python `bytes.decode("utf-8", errors="replace")` (CPython follows
the Unicode "maximal subpart" policy: every maximal prefix of an invalid or
incomplete sequence is replaced by a single U+FFFD). Bytes are `Nat`s;
values ≥ 0x100 do not occur but are treated as invalid start bytes. -/

def replChar : Char := Char.ofNat 0xFFFD

def isContByte (b : Nat) : Bool := 0x80 ≤ b && b ≤ 0xBF

/-- Valid second byte of a 3-byte sequence headed by `b1` (excludes
overlong encodings and surrogates, as CPython does). -/
def cont2ok (b1 b2 : Nat) : Bool :=
  if b1 = 0xE0 then 0xA0 ≤ b2 && b2 ≤ 0xBF
  else if b1 = 0xED then 0x80 ≤ b2 && b2 ≤ 0x9F
  else isContByte b2

/-- Valid second byte of a 4-byte sequence headed by `b1`. -/
def cont3ok (b1 b2 : Nat) : Bool :=
  if b1 = 0xF0 then 0x90 ≤ b2 && b2 ≤ 0xBF
  else if b1 = 0xF4 then 0x80 ≤ b2 && b2 ≤ 0x8F
  else isContByte b2

def decodeUtf8ReplaceListF : Nat → List Nat → List Char
  | 0, _ => []
  | _ + 1, [] => []
  | fuel + 1, b1 :: r1 =>
    if b1 < 0x80 then Char.ofNat b1 :: decodeUtf8ReplaceListF fuel r1
    else if b1 < 0xC2 then replChar :: decodeUtf8ReplaceListF fuel r1
    else if b1 < 0xE0 then
      match r1 with
      | [] => [replChar]
      | b2 :: r2 =>
        if isContByte b2 then
          Char.ofNat ((b1 - 0xC0) * 64 + (b2 - 0x80)) :: decodeUtf8ReplaceListF fuel r2
        else replChar :: decodeUtf8ReplaceListF fuel r1
    else if b1 < 0xF0 then
      match r1 with
      | [] => [replChar]
      | b2 :: r2 =>
        if cont2ok b1 b2 then
          match r2 with
          | [] => [replChar]
          | b3 :: r3 =>
            if isContByte b3 then
              Char.ofNat (((b1 - 0xE0) * 64 + (b2 - 0x80)) * 64 + (b3 - 0x80)) ::
                decodeUtf8ReplaceListF fuel r3
            else replChar :: decodeUtf8ReplaceListF fuel r2
        else replChar :: decodeUtf8ReplaceListF fuel r1
    else if b1 < 0xF5 then
      match r1 with
      | [] => [replChar]
      | b2 :: r2 =>
        if cont3ok b1 b2 then
          match r2 with
          | [] => [replChar]
          | b3 :: r3 =>
            if isContByte b3 then
              match r3 with
              | [] => [replChar]
              | b4 :: r4 =>
                if isContByte b4 then
                  Char.ofNat ((((b1 - 0xF0) * 64 + (b2 - 0x80)) * 64 + (b3 - 0x80)) * 64
                      + (b4 - 0x80)) :: decodeUtf8ReplaceListF fuel r4
                else replChar :: decodeUtf8ReplaceListF fuel r3
            else replChar :: decodeUtf8ReplaceListF fuel r2
        else replChar :: decodeUtf8ReplaceListF fuel r1
    else replChar :: decodeUtf8ReplaceListF fuel r1

def decodeUtf8ReplaceList (b : List Nat) : List Char :=
  decodeUtf8ReplaceListF b.length b

/-- Python `bytes.decode("utf-8", errors="replace")`. Total: never fails. -/
def decodeUtf8Replace (b : List Nat) : String := String.mk (decodeUtf8ReplaceList b)

/-! ## JSON values

The shape of what Python's `json.loads` yields. `json.loads` itself is an
external stdlib collaborator; the middleware embedding takes the decoding
function as a parameter `jl : List Nat → Option JVal` where `Option.none`
stands for `json.JSONDecodeError`. -/

inductive JVal where
  | null : JVal
  | bool (b : Bool) : JVal
  | num (n : Int) : JVal
  | str (s : String) : JVal
  | arr (xs : List JVal) : JVal
  | obj (fields : List (String × JVal)) : JVal
deriving Repr

/-! ## Redaction engine

Modelled from the spec: `redaction.py` (imported by `middleware.py` as
`from .redaction import redact_data, redact_headers`) is not part of the
source tree. Spec §4.2: a built-in, case-insensitive set of sensitive key
names extended by caller-supplied patterns; matching is substring on
normalized (lower-cased, separator-insensitive) key names; a matching key's
value is replaced by a fixed mask regardless of type or depth; redaction
recurses through nested mappings and sequences and never raises. -/

def MASK : String := "***REDACTED***"

def SENSITIVE_KEYS : List String :=
  ["password", "passwd", "pwd", "api_key", "apikey", "token", "secret",
   "authorization", "auth", "ssn", "credit_card", "creditcard"]

def normKey (s : String) : List Char :=
  s.data.map (fun c => if c = '-' then '_' else c.toLower)

def startsWithL : List Char → List Char → Bool
  | [], _ => true
  | _ :: _, [] => false
  | a :: as, b :: bs => a == b && startsWithL as bs

def containsSub (n : List Char) : List Char → Bool
  | [] => n.isEmpty
  | c :: rest => startsWithL n (c :: rest) || containsSub n rest

def isSensitiveKey (pats : List String) (k : String) : Bool :=
  (SENSITIVE_KEYS ++ pats).any (fun p => containsSub (normKey p) (normKey k))

mutual

/-- Modelled from the spec: `redact_data(value, extra_patterns)` from the
absent `redaction.py` (§4.2). -/
def redact_data : JVal → List String → JVal
  | JVal.obj fs, pats => JVal.obj (redactFields fs pats)
  | JVal.arr xs, pats => JVal.arr (redactList xs pats)
  | v, _ => v

def redactFields : List (String × JVal) → List String → List (String × JVal)
  | [], _ => []
  | (k, v) :: rest, pats =>
    (if isSensitiveKey pats k then (k, JVal.str MASK) else (k, redact_data v pats)) ::
      redactFields rest pats

def redactList : List JVal → List String → List JVal
  | [], _ => []
  | v :: rest, pats => redact_data v pats :: redactList rest pats

end

/-- Modelled from the spec: `redact_headers(header_map)` from the absent
`redaction.py` (§4.2) masks the values of headers whose name matches the
built-in sensitive-key list. -/
def redact_headers (hs : List (String × String)) : List (String × String) :=
  hs.map (fun p => if isSensitiveKey [] p.1 then (p.1, MASK) else p)

/-! ## Configuration

Modelled from the spec (§3): `models.py` (`ObservabilityConfig`,
`BusinessEventConfig`) is not part of the source tree. The ordered
`business_events` mapping is an association list in insertion order. -/

/-- Modelled from the spec: `BusinessEventConfig` from the absent
`models.py` (§3). -/
structure BusinessEventConfig where
  event_type : String
  extract_from_request : List String := []
  extract_from_response : List String := []
  extract_from_path : List String := []
deriving Repr

/-- Modelled from the spec: `ObservabilityConfig` from the absent
`models.py` (§3); the ordered `business_events` mapping is an association
list in insertion order. -/
structure ObservabilityConfig where
  service_name : String
  correlation_id_header : String := "X-Correlation-ID"
  log_request_headers : Bool := true
  log_response_headers : Bool := false
  log_query_params : Bool := true
  payload_size_limit : Nat := 10240
  additional_redaction_patterns : List String := []
  business_events : List (String × BusinessEventConfig) := []
deriving Repr

/-! ## Payload capture -/

/-- Result of body capture, mirroring the values `_parse_body_bytes` and
`_capture_response_body` can place under the `body` key: Python `None`,
the `_truncated` marker dict, a redacted JSON-decoded value, a best-effort
decoded string, or the `_streaming` marker dict. -/
inductive Body where
  | none : Body
  | truncated (original_size : Nat) (preview : String) : Body
  | decoded (v : JVal) : Body
  | rawText (s : String) : Body
  | streaming : Body
deriving Repr

/-- Embedding of `RequestResponseLoggingMiddleware._parse_body_bytes`
(src/src/auditry/middleware.py:167-193). `jl` models `json.loads`. -/
def parseBodyBytes (cfg : ObservabilityConfig) (jl : List Nat → Option JVal)
    (body_bytes : List Nat) : Body :=
  if body_bytes.isEmpty then Body.none
  else if body_bytes.length > cfg.payload_size_limit then
    Body.truncated body_bytes.length
      (decodeUtf8Replace (body_bytes.take cfg.payload_size_limit))
  else
    match jl body_bytes with
    | some j => Body.decoded (redact_data j cfg.additional_redaction_patterns)
    | Option.none => Body.rawText (decodeUtf8Replace body_bytes)

/-! ## The regex fragment used by the endpoint matcher

`_matches_endpoint_pattern` and `_extract_path_params` build regular
expressions by substituting `\x7b...\x7d` placeholders in the path template
and matching with `re.match("^...$", path)`. Python's `re` is an external
stdlib collaborator; it is modelled here by an executable engine for the
regex fragment those constructed strings fall into: literal characters
(including `/ \x7b \x7d ]` which Python treats literally), `.`, character
classes `[...]` with optional leading `^` negation and `lo-hi` ranges
(with Python's exact scanning rules: `]` or `-` first or `-` last are
literal, a range with `lo > hi` is `re.error`), the one-or-more quantifier
`+` after a single-character item, and the exact capturing group `([^/]+)`
produced by parameter substitution. The trailing `$` follows Python's
semantics: it matches at the end of the input or just before a single
trailing newline. Constructs outside this fragment (escapes, other
quantifiers, general groups, alternation, mid-pattern anchors) are mapped
to a parse failure; this direction is conservative — Python may accept
them — so every theorem conditioned on the model accepting a pattern says
nothing about patterns outside the fragment, while on accepted patterns
the engine agrees with Python's verdicts and captures. -/

inductive CharCls where
  | lit (c : Char) : CharCls
  | dot : CharCls
  | cls (neg : Bool) (ranges : List (Char × Char)) : CharCls
deriving Repr, DecidableEq

inductive RItem where
  | one (c : CharCls) : RItem
  | plus (c : CharCls) : RItem
  | cap : RItem
deriving Repr, DecidableEq

def clsMatch : CharCls → Char → Bool
  | CharCls.lit d, c => c == d
  | CharCls.dot, c => !(c == Char.ofNat 10)
  | CharCls.cls neg rs, c =>
    if neg then !(rs.any (fun r => r.1 ≤ c && c ≤ r.2))
    else rs.any (fun r => r.1 ≤ c && c ≤ r.2)

/-- Parser state: normal scanning; inside a `[...]` class holding the
ranges accumulated so far and, in `pend`, a completed item that may still
combine into a range (the flag records a seen `-` after it); or inside the
literal capturing group `([^/]+)` at position `k` of its tail. -/
inductive PMode where
  | norm : PMode
  | cls (neg : Bool) (rs : List (Char × Char)) (pend : Option (Char × Bool)) : PMode
  | cap (k : Nat) : PMode
deriving Repr, DecidableEq

def capTail : List Char := ['[', '^', '/', ']', '+', ')']

/-- Single-pass parser for the modelled regex fragment. The input is the
part of the constructed regex between the leading `^` and its end; the
final `$` must be the last character. Failure models `re.error`. The class
state machine replicates CPython's sre scanning: an item followed by `-`
and a further item forms a range (`re.error` when reversed), `-` before
`]` is literal, and `]` as the very first item is literal. -/
def parseLoop : List Char → PMode → List RItem → Option (List RItem)
  | [], _, _ => Option.none
  | c :: rest, PMode.norm, acc =>
    if c = '$' then (if rest.isEmpty then some acc.reverse else Option.none)
    else if c = '.' then parseLoop rest PMode.norm (RItem.one CharCls.dot :: acc)
    else if c = '[' then parseLoop rest (PMode.cls false [] Option.none) acc
    else if c = '(' then parseLoop rest (PMode.cap 0) acc
    else if c = '+' then
      match acc with
      | RItem.one cc :: acc2 => parseLoop rest PMode.norm (RItem.plus cc :: acc2)
      | _ => Option.none
    else if c = '*' || c = '?' || c = '|' || c = '\\' || c = ')' || c = '^' then Option.none
    else parseLoop rest PMode.norm (RItem.one (CharCls.lit c) :: acc)
  | c :: rest, PMode.cls neg rs Option.none, acc =>
    if c = ']' then
      (if rs.isEmpty then parseLoop rest (PMode.cls neg rs (some (']', false))) acc
       else parseLoop rest PMode.norm (RItem.one (CharCls.cls neg rs.reverse) :: acc))
    else if c = '^' && rs.isEmpty && !neg then
      parseLoop rest (PMode.cls true [] Option.none) acc
    else if c = '\\' then Option.none
    else parseLoop rest (PMode.cls neg rs (some (c, false))) acc
  | c :: rest, PMode.cls neg rs (some (p, false)), acc =>
    if c = ']' then
      parseLoop rest PMode.norm (RItem.one (CharCls.cls neg ((p, p) :: rs).reverse) :: acc)
    else if c = '-' then parseLoop rest (PMode.cls neg rs (some (p, true))) acc
    else if c = '\\' then Option.none
    else parseLoop rest (PMode.cls neg ((p, p) :: rs) (some (c, false))) acc
  | c :: rest, PMode.cls neg rs (some (p, true)), acc =>
    if c = ']' then
      parseLoop rest PMode.norm
        (RItem.one (CharCls.cls neg (('-', '-') :: (p, p) :: rs).reverse) :: acc)
    else if c = '\\' then Option.none
    else if p ≤ c then parseLoop rest (PMode.cls neg ((p, c) :: rs) Option.none) acc
    else Option.none
  | c :: rest, PMode.cap k, acc =>
    if capTail.get? k = some c then
      (if k = 5 then parseLoop rest PMode.norm (RItem.cap :: acc)
       else parseLoop rest (PMode.cap (k + 1)) acc)
    else Option.none

/-- Parse a constructed regex `"^" ++ body ++ "$"`. -/
def parseAnchored : List Char → Option (List RItem)
  | '^' :: rest => parseLoop rest PMode.norm []
  | _ => Option.none

/-- Remainders of `input` after consuming a non-empty run of characters
satisfying `p`, shortest consumption first. -/
def runsRems (p : Char → Bool) : List Char → List (List Char)
  | [] => []
  | a :: rest => if p a then rest :: runsRems p rest else []

/-- Same remainders, longest consumption first: the order in which Python's
greedy `+` explores them while backtracking. -/
def greedyRems (p : Char → Bool) (input : List Char) : List (List Char) :=
  (runsRems p input).reverse

/-- Backtracking matcher for an anchored match, returning the list of
captured group substrings of the first match found in Python's exploration
order, or `Option.none` when the regex does not match. The final `$` of
the constructed regex is reflected in the base case: the match succeeds
when the whole input is consumed or exactly one trailing newline remains,
as with Python's `$`. The fuel is structural bookkeeping only: every
recursive call removes one item. -/
def matchCapsF : Nat → List RItem → List Char → Option (List (List Char))
  | 0, _, _ => Option.none
  | _ + 1, [], input =>
    match input with
    | [] => some []
    | [c] => if c = '\n' then some [] else Option.none
    | _ => Option.none
  | fuel + 1, RItem.one c :: rest, input =>
    match input with
    | [] => Option.none
    | a :: input2 => if clsMatch c a then matchCapsF fuel rest input2 else Option.none
  | fuel + 1, RItem.plus c :: rest, input =>
    (greedyRems (clsMatch c) input).findSome? (fun rem => matchCapsF fuel rest rem)
  | fuel + 1, RItem.cap :: rest, input =>
    (greedyRems (fun a => !(a == '/')) input).findSome? (fun rem =>
      (matchCapsF fuel rest rem).map (fun caps =>
        input.take (input.length - rem.length) :: caps))

def matchCaps (items : List RItem) (input : List Char) : Option (List (List Char)) :=
  matchCapsF (items.length + 1) items input

/-! ## Endpoint pattern matching -/

/-- Python `s.split(" ", 1)`: the part before the first space and, when a
space exists, the part after it. -/
def splitSp : List Char → List Char × Option (List Char)
  | [] => ([], Option.none)
  | c :: rest =>
    if c = ' ' then ([], some rest)
    else
      let p := splitSp rest
      (c :: p.1, p.2)

/-- Replacement used by `_matches_endpoint_pattern`: `[^/]+`. -/
def plainRep : List Char := ['[', '^', '/', ']', '+']

/-- Replacement used by `_extract_path_params`: `([^/]+)`. -/
def capRep : List Char := ['(', '[', '^', '/', ']', '+', ')']

/-- Embedding of `re.sub(r"\x7b[^\x7d]+\x7d", rep, s)` as caused by the two
call sites: a single left-to-right scan replacing each placeholder that has
at least one character between the braces. The second argument carries the
accumulated placeholder content while inside an open brace. -/
def substLoop (rep : List Char) : List Char → Option (List Char) → List Char
  | [], Option.none => []
  | [], some acc => '\x7b' :: acc.reverse
  | c :: rest, Option.none =>
    if c = '\x7b' then substLoop rep rest (some [])
    else c :: substLoop rep rest Option.none
  | c :: rest, some acc =>
    if c = '\x7d' then
      (if acc.isEmpty then '\x7b' :: '\x7d' :: substLoop rep rest Option.none
       else rep ++ substLoop rep rest Option.none)
    else substLoop rep rest (some (c :: acc))

/-- Embedding of `re.findall(r"\x7b([^\x7d]+)\x7d", s)`: the placeholder
names, in left-to-right order, under the same scan as `substLoop`. -/
def findBraceNames : List Char → Option (List Char) → List (List Char)
  | [], _ => []
  | c :: rest, Option.none =>
    if c = '\x7b' then findBraceNames rest (some [])
    else findBraceNames rest Option.none
  | c :: rest, some acc =>
    if c = '\x7d' then
      (if acc.isEmpty then findBraceNames rest Option.none
       else acc.reverse :: findBraceNames rest Option.none)
    else findBraceNames rest (some (c :: acc))

/-- Embedding of `_matches_endpoint_pattern` (middleware.py:306-330) at the
level of character lists. `Option.none` models an escaping `re.error`
raised by `re.match` on a malformed constructed regex; `some b` is the
boolean the Python function returns. -/
def matchesEndpointPatternL (endpoint pattern : List Char) : Option Bool :=
  match splitSp endpoint, splitSp pattern with
  | (em, some ep), (pm, some pp) =>
    if em = pm then
      match parseAnchored ('^' :: (substLoop plainRep pp Option.none ++ ['$'])) with
      | some items => some (matchCaps items ep).isSome
      | Option.none => Option.none
    else some false
  | _, _ => some false

def matchesEndpointPattern (endpoint pattern : String) : Option Bool :=
  matchesEndpointPatternL endpoint.data pattern.data

/-- Embedding of `_extract_path_params` (middleware.py:332-360).
`Except.error` models an escaping `re.error`. -/
def extractPathParams (path pattern : String) : Except String (List (String × String)) :=
  let pp := match splitSp pattern.data with
    | (_, some b) => b
    | (_, Option.none) => pattern.data
  let names := findBraceNames pp Option.none
  if names.isEmpty then Except.ok []
  else
    match parseAnchored ('^' :: (substLoop capRep pp Option.none ++ ['$'])) with
    | Option.none => Except.error "re.error"
    | some items =>
      match matchCaps items path.data with
      | Option.none => Except.ok []
      | some caps =>
        Except.ok (List.zip (names.map String.mk) (caps.map String.mk))

/-! ## The request/response pipeline -/

/-- Python truthiness of an optional string (`if correlation_id:`). -/
def pyTruthyS : Option String → Bool
  | some s => !(s == "")
  | Option.none => false

def jvalTruthy : JVal → Bool
  | JVal.null => false
  | JVal.bool b => b
  | JVal.num n => !(n == 0)
  | JVal.str s => !(s == "")
  | JVal.arr xs => !xs.isEmpty
  | JVal.obj fs => !fs.isEmpty

/-- Python truthiness of a captured body value
(`request_data.get("body")`). -/
def pyTruthyBody : Body → Bool
  | Body.none => false
  | Body.truncated _ _ => true
  | Body.decoded v => jvalTruthy v
  | Body.rawText s => !(s == "")
  | Body.streaming => true

/-- The fields of a captured body when it is a Python `dict`
(`isinstance(request_body, dict)`): a decoded JSON object, the `_truncated`
marker dict, or the `_streaming` marker dict. -/
def bodyDictFields : Body → Option (List (String × JVal))
  | Body.decoded (JVal.obj fs) => some fs
  | Body.truncated sz pv =>
    some [("_truncated", JVal.bool true), ("_original_size", JVal.num sz),
          ("_preview", JVal.str pv)]
  | Body.streaming =>
    some [("_streaming", JVal.bool true),
          ("_message", JVal.str "Streaming response body not captured")]
  | _ => Option.none

/-- Python dict lookup on an association list (later bindings win). -/
def dictGet (fs : List (String × JVal)) (k : String) : Option JVal :=
  (fs.reverse.find? (fun p => p.1 == k)).map (fun p => p.2)

def strDictGet (ps : List (String × String)) (k : String) : Option String :=
  (ps.reverse.find? (fun p => p.1 == k)).map (fun p => p.2)

/-- The `for field in ...: if field in body: ctx[field] = body[field]` loop. -/
def extractFields (names : List String) (fs : List (String × JVal)) :
    List (String × JVal) :=
  names.filterMap (fun n => (dictGet fs n).map (fun v => (n, v)))

/-- Context contribution of one captured body for a configured field list,
including the truthiness and `isinstance(..., dict)` guards of
`_extract_business_event`. -/
def ctxFromBody (names : List String) (b : Body) : List (String × JVal) :=
  if names.isEmpty then []
  else if pyTruthyBody b then
    match bodyDictFields b with
    | some fs => extractFields names fs
    | Option.none => []
  else []

structure EventData where
  event_type : String
  business_context : List (String × JVal)
deriving Repr

/-- An exception value: Python `type(e).__name__` and `str(e)`. -/
structure Exc where
  kind : String
  msg : String
deriving Repr, DecidableEq

/-- The dict `_capture_request` returns. -/
structure RequestData where
  method : String
  path : String
  query_params : Option (List (String × String))
  headers : Option (List (String × String))
  body : Body
  user_id : Option String
  correlation_id : Option String
deriving Repr

/-- The dict `_capture_response` returns. -/
structure ResponseData where
  status_code : Nat
  headers : Option (List (String × String))
  body : Body
  duration_ms : Nat
deriving Repr

/-- One emission on the structured-log sink: the success (`logger.info`)
record, the failure (`logger.error`) record, or a non-fatal capture warning
(`logger.warning`). -/
inductive LogRecord where
  | success (service : String) (request : RequestData) (response : ResponseData)
      (execution_duration_ms : Nat) (event : Option EventData) : LogRecord
  | failure (service : String) (request : RequestData)
      (exception_type exception_message : String) (execution_duration_ms : Nat) : LogRecord
  | warn (msg : String) : LogRecord

/-- `request.state`: attribute presence is the outer `Option`; a present
attribute may still hold Python `None` (the inner `Option`). -/
structure UserObj where
  idAttr : Option (Option String)

structure RequestState where
  userIdAttr : Option (Option String)
  userAttr : Option UserObj

/-- The inbound request as the middleware observes it. `bodyResult` is the
outcome of `await request.body()`; `Except.error` models an exception
raised while reading the body. -/
structure Request where
  method : String
  path : String
  headers : List (String × String)
  query_params : List (String × String)
  state : RequestState
  bodyResult : Except String (List Nat)

/-- The response returned by `call_next`. `body` is present when the
response object has a materialized `body` attribute. -/
structure Response where
  status_code : Nat
  headers : List (String × String)
  streaming : Bool
  body : Option (List Nat)
deriving Repr

/-- Case-insensitive header lookup (HTTP header maps). -/
def lowerStr (s : String) : String := String.mk (s.data.map Char.toLower)

def getHeader (hs : List (String × String)) (k : String) : Option String :=
  (hs.find? (fun p => lowerStr p.1 == lowerStr k)).map (fun p => p.2)

/-- `response.headers[k] = v` on starlette's case-insensitive mutable
headers: drop existing entries for the key, append the new one. -/
def setHeader (hs : List (String × String)) (k v : String) : List (String × String) :=
  hs.filter (fun p => !(lowerStr p.1 == lowerStr k)) ++ [(k, v)]

/-- User-identifier probing of `_capture_request` (middleware.py:134-142):
a direct `request.state.user_id` wins over `request.state.user.id`. -/
def extractUserId (st : RequestState) : Option String :=
  match st.userIdAttr with
  | some v => v
  | Option.none =>
    match st.userAttr with
    | some u =>
      match u.idAttr with
      | some v => v
      | Option.none => Option.none
    | Option.none => Option.none

/-- Embedding of `_capture_request` together with `_capture_request_body`
(middleware.py:127-207). The second component is the warning emitted when
reading the body raised. -/
def captureRequest (cfg : ObservabilityConfig) (jl : List Nat → Option JVal)
    (req : Request) (correlation_id : Option String) :
    RequestData × List LogRecord :=
  let hdrs := if cfg.log_request_headers then some (redact_headers req.headers)
    else Option.none
  let qps := if cfg.log_query_params then some req.query_params else Option.none
  let bw : Body × List LogRecord :=
    match req.bodyResult with
    | Except.ok bs => (parseBodyBytes cfg jl bs, [])
    | Except.error e => (Body.none, [LogRecord.warn ("Failed to capture request body: " ++ e)])
  ({ method := req.method, path := req.path, query_params := qps, headers := hdrs,
     body := bw.1, user_id := extractUserId req.state, correlation_id := correlation_id },
   bw.2)

/-- Embedding of `_capture_response` together with `_capture_response_body`
(middleware.py:209-251). -/
def captureResponse (cfg : ObservabilityConfig) (jl : List Nat → Option JVal)
    (resp : Response) (duration_ms : Nat) : ResponseData :=
  let hdrs := if cfg.log_response_headers then some (redact_headers resp.headers)
    else Option.none
  let body :=
    if resp.streaming then Body.streaming
    else
      match resp.body with
      | some bs => parseBodyBytes cfg jl bs
      | Option.none => Body.none
  { status_code := resp.status_code, headers := hdrs, body := body,
    duration_ms := duration_ms }

/-- The iteration of `_extract_business_event` over the configured
patterns. `Except.error` models an `re.error` escaping from pattern
matching or path-parameter extraction. -/
def evLoop (method path : String) (reqBody respBody : Body) :
    List (String × BusinessEventConfig) → Except String (Option EventData)
  | [] => Except.ok Option.none
  | (p, ec) :: rest =>
    match matchesEndpointPattern (method ++ " " ++ path) p with
    | Option.none => Except.error "re.error"
    | some false => evLoop method path reqBody respBody rest
    | some true =>
      let ctx1 := ctxFromBody ec.extract_from_request reqBody
      let ctx2 := ctxFromBody ec.extract_from_response respBody
      match (if ec.extract_from_path.isEmpty then Except.ok []
             else extractPathParams path p) with
      | Except.error e => Except.error e
      | Except.ok pps =>
        let ctx3 := ec.extract_from_path.filterMap (fun n =>
          (strDictGet pps n).map (fun v => (n, JVal.str v)))
        Except.ok (some { event_type := ec.event_type,
                          business_context := ctx1 ++ ctx2 ++ ctx3 })

/-- Embedding of `_extract_business_event` (middleware.py:253-304). -/
def extractBusinessEvent (cfg : ObservabilityConfig) (method path : String)
    (reqBody respBody : Body) : Except String (Option EventData) :=
  if cfg.business_events.isEmpty then Except.ok Option.none
  else evLoop method path reqBody respBody cfg.business_events

/-- Embedding of `dispatch` (middleware.py:49-125). Ambient inputs appear as
parameters: `correlation_id` is what `get_correlation_id()` yields,
`handler` is the outcome of `await call_next(request)`, `dur` the measured
elapsed milliseconds. The result pairs the records emitted on the log sink
(in emission order) with the returned response or the re-raised
exception. -/
def dispatch (cfg : ObservabilityConfig) (jl : List Nat → Option JVal)
    (correlation_id : Option String) (req : Request)
    (handler : Except Exc Response) (dur : Nat) :
    List LogRecord × Except Exc Response :=
  let rw := captureRequest cfg jl req correlation_id
  match handler with
  | Except.error e =>
    (rw.2 ++ [LogRecord.failure cfg.service_name rw.1 e.kind e.msg dur],
     Except.error e)
  | Except.ok resp =>
    let respData := captureResponse cfg jl resp dur
    let newHeaders := setHeader resp.headers cfg.correlation_id_header (correlation_id.getD "")
    let resp2 := if pyTruthyS correlation_id then { resp with headers := newHeaders } else resp
    match extractBusinessEvent cfg req.method req.path rw.1.body respData.body with
    | Except.error m =>
      (rw.2 ++ [LogRecord.failure cfg.service_name rw.1 "error" m dur],
       Except.error { kind := "error", msg := m })
    | Except.ok evt =>
      (rw.2 ++ [LogRecord.success cfg.service_name rw.1 respData dur evt],
       Except.ok resp2)

/-! ## Unified middleware and correlation -/

/-- Embedding of `ObservabilityMiddleware.__init__`
(unified_middleware.py:33-66): the only construction-time check is that a
config was supplied; on success the wrapped stack is built around the given
config unchanged. -/
def observabilityMiddlewareInit (config : Option ObservabilityConfig) :
    Except String ObservabilityConfig :=
  match config with
  | Option.none => Except.error "ObservabilityConfig is required"
  | some c => Except.ok c

/-- Modelled from the spec: `models.py` is absent from src; §3 requires
`service_name` to be a required, non-empty string, resolved once at
construction. -/
def mkObservabilityConfig (c : ObservabilityConfig) : Except String ObservabilityConfig :=
  if c.service_name == "" then Except.error "service_name is required"
  else Except.ok c

/-- Modelled from the spec: `correlation.py` and the asgi-correlation-id
middleware are absent from src; §4.1 reuses a non-empty inbound header
value verbatim and otherwise generates a fresh token. -/
def resolveCorrelation (inbound : Option String) (fresh : String) : String :=
  match inbound with
  | some s => if s == "" then fresh else s
  | Option.none => fresh

/-- The unified stack per request: the correlation middleware resolves the
token from the inbound header (generating `fresh` when absent), and the
logging middleware runs with that token as its ambient correlation id. -/
def unifiedPipeline (cfg : ObservabilityConfig) (jl : List Nat → Option JVal)
    (req : Request) (handler : Except Exc Response) (fresh : String) (dur : Nat) :
    List LogRecord × Except Exc Response :=
  let cid := resolveCorrelation (getHeader req.headers cfg.correlation_id_header) fresh
  dispatch cfg jl (some cid) req handler dur

/-! ## Record observers -/

def LogRecord.isWarn : LogRecord → Bool
  | LogRecord.warn _ => true
  | _ => false

def LogRecord.isSuccess : LogRecord → Bool
  | LogRecord.success _ _ _ _ _ => true
  | _ => false

def LogRecord.isFailure : LogRecord → Bool
  | LogRecord.failure _ _ _ _ _ => true
  | _ => false

/-- The success/failure records among the emissions (the per-request
LogRecords proper, excluding capture warnings). -/
def mainRecords (rs : List LogRecord) : List LogRecord :=
  rs.filter (fun r => !r.isWarn)

/-- The request body a record carries (warnings carry none). -/
def recReqBody : LogRecord → Option Body
  | LogRecord.success _ rq _ _ _ => some rq.body
  | LogRecord.failure _ rq _ _ _ => some rq.body
  | LogRecord.warn _ => Option.none

/-- The response body a record carries. -/
def recRespBody : LogRecord → Option Body
  | LogRecord.success _ _ rp _ _ => some rp.body
  | _ => Option.none

/-- The correlation field a record carries. -/
def recCorrelation : LogRecord → Option String
  | LogRecord.success _ rq _ _ _ => rq.correlation_id
  | LogRecord.failure _ rq _ _ _ => rq.correlation_id
  | LogRecord.warn _ => Option.none

/-! ## Concrete fixtures -/

/-- A JSON decoder stub that always fails (`json.JSONDecodeError`). -/
def jlNone : List Nat → Option JVal := fun _ => Option.none

def ecPlain : BusinessEventConfig := { event_type := "evt" }

def stateEmpty : RequestState := { userIdAttr := Option.none, userAttr := Option.none }

def reqBasic : Request :=
  { method := "GET", path := "/x", headers := [], query_params := [],
    state := stateEmpty, bodyResult := Except.ok [] }

def respBasic : Response :=
  { status_code := 200, headers := [], streaming := false, body := Option.none }

/-- A config whose only business-event pattern builds an invalid regex
(`^/a($`): Python raises `re.error` when the pattern is first matched. -/
def cfgBadPattern : ObservabilityConfig :=
  { service_name := "svc", business_events := [("GET /a(", ecPlain)] }

def cfgLim2 : ObservabilityConfig := { service_name := "svc", payload_size_limit := 2 }

/-- A JSON decoder stub returning a fixed object with a sensitive field. -/
def jlObj : List Nat → Option JVal :=
  fun _ => some (JVal.obj [("password", JVal.str "hunter2"), ("name", JVal.str "Docs")])

def reqJson : Request :=
  { method := "POST", path := "/folders", headers := [], query_params := [],
    state := stateEmpty, bodyResult := Except.ok [48] }

def cfgSvc : ObservabilityConfig := { service_name := "svc" }

def reqBothShapes : Request :=
  { method := "GET", path := "/u", headers := [], query_params := [],
    state := { userIdAttr := some (some "direct"),
               userAttr := some { idAttr := some (some "nested") } },
    bodyResult := Except.ok [] }

def ecFirst : BusinessEventConfig := { event_type := "first" }

def ecSecond : BusinessEventConfig := { event_type := "second" }

/-- Two overlapping patterns, both matching `GET /a/b`. -/
def cfgOverlap : ObservabilityConfig :=
  { service_name := "svc",
    business_events := [("GET /a/\x7bx\x7d", ecFirst), ("GET /a/b", ecSecond)] }

def reqCorr : Request :=
  { method := "GET", path := "/x", headers := [("X-Correlation-ID", "abc123")],
    query_params := [], state := stateEmpty, bodyResult := Except.ok [] }

def cfgMalformed : ObservabilityConfig :=
  { service_name := "svc", business_events := [("POSTfolders", ecPlain)] }

/-! ## Claim theorems: endpoint-pattern semantics

The spec-side reading of a path template: a sequence of literal chunks and
single-segment parameters. `specMatch` is written from the spec's words
(§4.4) — a `\x7b identifier \x7d` placeholder matches one or more
characters none of which is `/`, every other character matches itself —
to be compared against the embedded `_matches_endpoint_pattern`. -/

inductive Seg where
  | lit (s : List Char) : Seg
  | pvar (nm : List Char) : Seg

def renderTemplate : List Seg → List Char
  | [] => []
  | Seg.lit s :: rest => s ++ renderTemplate rest
  | Seg.pvar n :: rest => '\x7b' :: (n ++ '\x7d' :: renderTemplate rest)

/-- Characters with no regex meta-role in the modelled fragment and not
part of a placeholder. -/
def plainChar (c : Char) : Bool :=
  !(c == '$') && !(c == '.') && !(c == '[') && !(c == ']') && !(c == '(') &&
  !(c == ')') && !(c == '+') && !(c == '*') && !(c == '?') && !(c == '|') &&
  !(c == '\\') && !(c == '^') && !(c == '\x7b') && !(c == '\x7d')

def wfSeg : Seg → Bool
  | Seg.lit s => s.all plainChar
  | Seg.pvar n => !n.isEmpty && n.all (fun c => !(c == '\x7d'))

def wfTemplate (t : List Seg) : Bool := t.all wfSeg

/-- Spec-side matching of a template against a path. -/
def specMatch : List Seg → List Char → Bool
  | [], input => input.isEmpty
  | Seg.lit s :: rest, input => startsWithL s input && specMatch rest (input.drop s.length)
  | Seg.pvar _ :: rest, input =>
    (runsRems (fun c => !(c == '/')) input).any (fun rem => specMatch rest rem)

/-- The regex items the code's substitution-and-parse steps produce for a
well-formed template. -/
def itemsOfTemplate : List Seg → List RItem
  | [] => []
  | Seg.lit s :: rest =>
    s.map (fun c => RItem.one (CharCls.lit c)) ++ itemsOfTemplate rest
  | Seg.pvar _ :: rest => RItem.plus (CharCls.cls true [('/', '/')]) :: itemsOfTemplate rest

/-- What the brace substitution should yield chunk by chunk. -/
def substTarget (rep : List Char) : List Seg → List Char
  | [] => []
  | Seg.lit s :: rest => s ++ substTarget rep rest
  | Seg.pvar _ :: rest => rep ++ substTarget rep rest

/-! Matcher unfolding lemmas: the fuel in `matchCaps` is always exactly one
more than the item count, so the wrapper satisfies clean recursion
equations definitionally. -/

def matchB (items : List RItem) (input : List Char) : Bool :=
  (matchCaps items input).isSome

/-- Whether a character list ends in a newline. -/
def lastIsNl (l : List Char) : Bool :=
  match l.getLast? with
  | some c => c == '\n'
  | Option.none => false

/-- Spec-side matching including the end rule of Python's `$`: the whole
path is consumed, or everything but one trailing newline. -/
def specMatchEnd : List Seg → List Char → Bool
  | [], input =>
    match input with
    | [] => true
    | [c] => c == '\n'
    | _ => false
  | Seg.lit s :: rest, input =>
    startsWithL s input && specMatchEnd rest (input.drop s.length)
  | Seg.pvar _ :: rest, input =>
    (runsRems (fun c => !(c == '/')) input).any (fun rem => specMatchEnd rest rem)

def tFolders : List Seg := [Seg.lit "/folders/".data, Seg.pvar "folder_id".data]

/-! ## Helper lemmas -/

theorem parseBodyBytes_decoded (cfg : ObservabilityConfig) (jl : List Nat → Option JVal)
    (b : List Nat) (v : JVal) (h : parseBodyBytes cfg jl b = Body.decoded v) :
    ∃ j, jl b = some j ∧ v = redact_data j cfg.additional_redaction_patterns := by
  unfold parseBodyBytes at h
  by_cases hb : b.isEmpty
  · simp [hb] at h
  · by_cases hgt : b.length > cfg.payload_size_limit
    · simp [hb, hgt] at h
    · cases hj : jl b with
      | none => simp [hb, hgt, hj] at h
      | some j =>
        simp [hb, hgt, hj] at h
        exact ⟨j, rfl, h.symm⟩

theorem captureRequest_warns (cfg : ObservabilityConfig) (jl : List Nat → Option JVal)
    (req : Request) (cid : Option String) :
    ∀ r ∈ (captureRequest cfg jl req cid).2, r.isWarn = true := by
  intro r hr
  unfold captureRequest at hr
  cases hb : req.bodyResult with
  | ok bs => simp [hb] at hr
  | error e =>
    simp [hb] at hr
    simp [hr, LogRecord.isWarn]

theorem captureRequest_body_cases (cfg : ObservabilityConfig) (jl : List Nat → Option JVal)
    (req : Request) (cid : Option String) :
    (captureRequest cfg jl req cid).1.body = Body.none ∨
    ∃ bs, (captureRequest cfg jl req cid).1.body = parseBodyBytes cfg jl bs := by
  unfold captureRequest
  cases hb : req.bodyResult with
  | ok bs => right; exact ⟨bs, by simp [hb]⟩
  | error e => left; simp [hb]

theorem captureResponse_body_cases (cfg : ObservabilityConfig) (jl : List Nat → Option JVal)
    (resp : Response) (dur : Nat) :
    (captureResponse cfg jl resp dur).body = Body.none ∨
    (captureResponse cfg jl resp dur).body = Body.streaming ∨
    ∃ bs, (captureResponse cfg jl resp dur).body = parseBodyBytes cfg jl bs := by
  unfold captureResponse
  by_cases hs : resp.streaming
  · right; left; simp [hs]
  · cases hb : resp.body with
    | none => left; simp [hs, hb]
    | some bs => right; right; exact ⟨bs, by simp [hs, hb]⟩

theorem mainRecords_warns_append (ws : List LogRecord) (r : LogRecord)
    (hw : ∀ w ∈ ws, w.isWarn = true) (hr : r.isWarn = false) :
    mainRecords (ws ++ [r]) = [r] := by
  unfold mainRecords
  rw [List.filter_append]
  have h1 : ws.filter (fun x => !x.isWarn) = [] := by
    rw [List.filter_eq_nil_iff]
    intro a ha
    simp [hw a ha]
  simp [h1, hr]

/-! ## Claim theorems: payload capture -/

/-- C2: for a positive configured limit L, a payload of at most L bytes is
never reported truncated, and a payload of more than L bytes is reported
truncated with `original_size` equal to the payload length and a preview
that is exactly the first L bytes decoded as UTF-8 with replacement (the
decoding, and hence the whole branch, is total and never raises). -/
theorem truncation_exact (cfg : ObservabilityConfig) (jl : List Nat → Option JVal)
    (b : List Nat) (hpos : 0 < cfg.payload_size_limit) :
    (b.length ≤ cfg.payload_size_limit →
      ∀ n p, parseBodyBytes cfg jl b ≠ Body.truncated n p) ∧
    (b.length > cfg.payload_size_limit →
      parseBodyBytes cfg jl b
        = Body.truncated b.length (decodeUtf8Replace (b.take cfg.payload_size_limit))) := by
  constructor
  · intro hle n p
    unfold parseBodyBytes
    by_cases hb : b.isEmpty
    · simp [hb]
    · have hgt : ¬ b.length > cfg.payload_size_limit := by omega
      cases hj : jl b with
      | none => simp [hb, hgt, hj]
      | some j => simp [hb, hgt, hj]
  · intro hgt
    have hb : ¬ b.isEmpty := by
      cases b with
      | nil => simp at hgt
      | cons x xs => simp
    unfold parseBodyBytes
    simp [hb, hgt]

/-- Witness for C2 at the concrete payload `[97, 98, 99]` and limit 2. -/
theorem truncation_exact_w :
    parseBodyBytes cfgLim2 jlNone [97, 98, 99]
      = Body.truncated 3 (decodeUtf8Replace [97, 98]) := by
  have h := (truncation_exact cfgLim2 jlNone [97, 98, 99] (by decide)).2 (by decide)
  simpa using h

/-- C9: an oversized body is logged as the raw first-`limit` bytes decoded
with replacement, and a body that fails JSON decoding is logged as the raw
bytes decoded with replacement; in both cases the logged value is exactly
the verbatim decode of the captured bytes, with no redaction applied. -/
theorem oversize_nonjson_unredacted (cfg : ObservabilityConfig)
    (jl : List Nat → Option JVal) (b : List Nat) :
    (b.length > cfg.payload_size_limit →
      parseBodyBytes cfg jl b
        = Body.truncated b.length (decodeUtf8Replace (b.take cfg.payload_size_limit))) ∧
    (¬ b.isEmpty → b.length ≤ cfg.payload_size_limit → jl b = Option.none →
      parseBodyBytes cfg jl b = Body.rawText (decodeUtf8Replace b)) := by
  constructor
  · intro hgt
    have hb : ¬ b.isEmpty := by
      cases b with
      | nil => simp at hgt
      | cons x xs => simp
    unfold parseBodyBytes
    simp [hb, hgt]
  · intro hb hle hj
    have hgt : ¬ b.length > cfg.payload_size_limit := by omega
    unfold parseBodyBytes
    simp [hb, hgt, hj]

/-- Witness for C9: the bytes of `password=x` do not decode as JSON and are
logged verbatim as raw text. -/
theorem oversize_nonjson_unredacted_w :
    parseBodyBytes cfgLim2 jlNone [112] = Body.rawText (decodeUtf8Replace [112]) :=
  (oversize_nonjson_unredacted cfgLim2 jlNone [112]).2 (by decide) (by decide) rfl

/-! ## Claim theorems: dispatch invariants -/

/-- C1: every structured (JSON-decoded) body value carried by any record the
pipeline emits — request or response body, success or failure path — is the
image under `redact_data` of the decoded JSON value, so no unredacted
structured body value reaches the log sink. -/
theorem decoded_bodies_redacted (cfg : ObservabilityConfig) (jl : List Nat → Option JVal)
    (cid : Option String) (req : Request) (handler : Except Exc Response) (dur : Nat)
    (r : LogRecord) (v : JVal)
    (hr : r ∈ (dispatch cfg jl cid req handler dur).1)
    (hv : recReqBody r = some (Body.decoded v) ∨ recRespBody r = some (Body.decoded v)) :
    ∃ j, v = redact_data j cfg.additional_redaction_patterns := by
  have hreq : ∀ hb : (captureRequest cfg jl req cid).1.body = Body.decoded v,
      ∃ j, v = redact_data j cfg.additional_redaction_patterns := by
    intro hb
    rcases captureRequest_body_cases cfg jl req cid with h0 | ⟨bs, hbs⟩
    · rw [h0] at hb; exact absurd hb (by simp)
    · rw [hbs] at hb
      obtain ⟨j, _, hj⟩ := parseBodyBytes_decoded cfg jl bs v hb
      exact ⟨j, hj⟩
  cases handler with
  | error e =>
    simp only [dispatch] at hr
    rw [List.mem_append] at hr
    rcases hr with hw | hm
    · have := captureRequest_warns cfg jl req cid r hw
      cases r <;> simp [LogRecord.isWarn] at this ⊢
      all_goals simp [recReqBody, recRespBody] at hv
    · simp at hm
      rcases hv with hv | hv
      · rw [hm] at hv
        simp [recReqBody] at hv
        exact hreq hv
      · rw [hm] at hv
        simp [recRespBody] at hv
  | ok resp =>
    simp only [dispatch] at hr
    cases hext : extractBusinessEvent cfg req.method req.path
        (captureRequest cfg jl req cid).1.body
        (captureResponse cfg jl resp dur).body with
    | error m =>
      rw [hext] at hr
      simp only [List.mem_append] at hr
      rcases hr with hw | hm
      · have := captureRequest_warns cfg jl req cid r hw
        cases r <;> simp [LogRecord.isWarn] at this ⊢
        all_goals simp [recReqBody, recRespBody] at hv
      · simp at hm
        rcases hv with hv | hv
        · rw [hm] at hv
          simp [recReqBody] at hv
          exact hreq hv
        · rw [hm] at hv
          simp [recRespBody] at hv
    | ok evt =>
      rw [hext] at hr
      simp only [List.mem_append] at hr
      rcases hr with hw | hm
      · have := captureRequest_warns cfg jl req cid r hw
        cases r <;> simp [LogRecord.isWarn] at this ⊢
        all_goals simp [recReqBody, recRespBody] at hv
      · simp at hm
        rcases hv with hv | hv
        · rw [hm] at hv
          simp [recReqBody] at hv
          exact hreq hv
        · rw [hm] at hv
          simp [recRespBody] at hv
          rcases captureResponse_body_cases cfg jl resp dur with h0 | h0 | ⟨bs, hbs⟩
          · rw [h0] at hv; exact absurd hv (by simp)
          · rw [h0] at hv; exact absurd hv (by simp)
          · rw [hbs] at hv
            obtain ⟨j, _, hj⟩ := parseBodyBytes_decoded cfg jl bs v hv
            exact ⟨j, hj⟩

/-- Witness for C1: a concrete run whose success record carries a decoded
request body, which is therefore a `redact_data` image. -/
theorem decoded_bodies_redacted_w :
    ∃ j, redact_data (JVal.obj [("password", JVal.str "hunter2"), ("name", JVal.str "Docs")]) []
      = redact_data j cfgSvc.additional_redaction_patterns := by
  refine decoded_bodies_redacted cfgSvc jlObj Option.none reqJson
    (Except.ok respBasic) 7
    (LogRecord.success cfgSvc.service_name (captureRequest cfgSvc jlObj reqJson Option.none).1
      (captureResponse cfgSvc jlObj respBasic 7) 7 Option.none) _ ?_ ?_
  · simp [dispatch, extractBusinessEvent, cfgSvc, captureRequest, reqJson]
  · left
    simp [recReqBody, captureRequest, reqJson, parseBodyBytes, jlObj, cfgSvc]

/-- C4: when the handler raises, the pipeline emits exactly one failure
record carrying the captured request together with the exception's kind and
message, and re-raises the very same exception value unchanged. -/
theorem reraise_unchanged (cfg : ObservabilityConfig) (jl : List Nat → Option JVal)
    (cid : Option String) (req : Request) (e : Exc) (dur : Nat) :
    (dispatch cfg jl cid req (Except.error e) dur).2 = Except.error e ∧
    mainRecords (dispatch cfg jl cid req (Except.error e) dur).1
      = [LogRecord.failure cfg.service_name (captureRequest cfg jl req cid).1
          e.kind e.msg dur] := by
  constructor
  · simp [dispatch]
  · simp only [dispatch]
    exact mainRecords_warns_append _ _ (captureRequest_warns cfg jl req cid)
      (by simp [LogRecord.isWarn])

/-- C10: a direct `request.state.user_id` attribute is used even when a
`user` object with an `id` is also present, and when neither shape is
present the captured record's user identifier is `None` while capture still
succeeds with the request's method and path. -/
theorem user_id_precedence (cfg : ObservabilityConfig) (jl : List Nat → Option JVal)
    (req : Request) (cid : Option String) :
    (∀ v, req.state.userIdAttr = some v →
      (captureRequest cfg jl req cid).1.user_id = v) ∧
    (req.state.userIdAttr = Option.none →
      (∀ u, req.state.userAttr = some u → u.idAttr = Option.none) →
      (captureRequest cfg jl req cid).1.user_id = Option.none ∧
      (captureRequest cfg jl req cid).1.method = req.method ∧
      (captureRequest cfg jl req cid).1.path = req.path) := by
  constructor
  · intro v hv
    simp [captureRequest, extractUserId, hv]
  · intro h0 hu
    refine ⟨?_, by simp [captureRequest], by simp [captureRequest]⟩
    simp only [captureRequest, extractUserId, h0]
    cases ha : req.state.userAttr with
    | none => simp
    | some u => simp [hu u ha]

/-- Witness for C10: with both shapes present the direct id wins. -/
theorem user_id_precedence_w :
    (captureRequest cfgSvc jlNone reqBothShapes Option.none).1.user_id = some "direct" :=
  (user_id_precedence cfgSvc jlNone reqBothShapes Option.none).1 (some "direct") rfl

/-! ## Claim theorems: one record per request, error propagation -/

/-- C3 counterexample: with a configured business-event pattern whose
derived regex is invalid (`"GET /a("` becomes `^/a($`, on which Python's
`re.match` raises `re.error`), a request whose handler returns normally
still produces a failure record and no success record, because the
`re.error` escapes inside the pipeline's protected region. -/
theorem one_record_cex :
    (dispatch cfgBadPattern jlNone Option.none reqBasic (Except.ok respBasic) 5).1.map
        LogRecord.isFailure = [true] ∧
    (dispatch cfgBadPattern jlNone Option.none reqBasic (Except.ok respBasic) 5).1.map
        LogRecord.isSuccess = [false] ∧
    (dispatch cfgBadPattern jlNone Option.none reqBasic (Except.ok respBasic) 5).2
      = Except.error { kind := "error", msg := "re.error" } := by
  refine ⟨by decide, by decide, rfl⟩

/-- C3 (amended): provided business-event classification does not raise —
the embedded classifier returns `ok`, which on the modelled regex fragment
coincides with Python's `re` raising no error and which fails for any
pattern the model cannot vouch for (such as `GET /[z-a]`, a bad character
range) — each dispatched request emits exactly one success-or-failure
record: a failure record when the handler raises, a success record when it
returns. -/
theorem one_main_record (cfg : ObservabilityConfig) (jl : List Nat → Option JVal)
    (cid : Option String) (req : Request) (handler : Except Exc Response) (dur : Nat)
    (hok : ∀ resp, handler = Except.ok resp →
      ∃ evt, extractBusinessEvent cfg req.method req.path
          (captureRequest cfg jl req cid).1.body
          (captureResponse cfg jl resp dur).body = Except.ok evt) :
    ∃ r, mainRecords (dispatch cfg jl cid req handler dur).1 = [r] ∧
      (∀ e, handler = Except.error e → r.isFailure = true ∧ r.isSuccess = false) ∧
      (∀ resp, handler = Except.ok resp → r.isSuccess = true ∧ r.isFailure = false) := by
  cases handler with
  | error e =>
    refine ⟨LogRecord.failure cfg.service_name (captureRequest cfg jl req cid).1
      e.kind e.msg dur, ?_, ?_, ?_⟩
    · simp only [dispatch]
      exact mainRecords_warns_append _ _ (captureRequest_warns cfg jl req cid)
        (by simp [LogRecord.isWarn])
    · intro e2 _
      simp [LogRecord.isFailure, LogRecord.isSuccess]
    · intro resp h
      simp at h
  | ok resp =>
    obtain ⟨evt, hevt⟩ := hok resp rfl
    refine ⟨LogRecord.success cfg.service_name (captureRequest cfg jl req cid).1
      (captureResponse cfg jl resp dur) dur evt, ?_, ?_, ?_⟩
    · simp only [dispatch, hevt]
      exact mainRecords_warns_append _ _ (captureRequest_warns cfg jl req cid)
        (by simp [LogRecord.isWarn])
    · intro e2 h
      simp at h
    · intro resp2 _
      simp [LogRecord.isFailure, LogRecord.isSuccess]

/-- Witness for the amended C3: a well-configured request (no business
events) with a normally-returning handler yields exactly one record. -/
theorem one_main_record_w :
    (mainRecords (dispatch cfgSvc jlNone Option.none reqBasic
      (Except.ok respBasic) 5).1).length = 1 := by
  obtain ⟨r, hr, _, _⟩ := one_main_record cfgSvc jlNone Option.none reqBasic
    (Except.ok respBasic) 5
    (fun resp h => ⟨Option.none, by
      cases h
      rfl⟩)
  rw [hr]
  rfl

/-! ## Claim theorems: business-event classification -/

theorem evLoop_all_false (method path : String) (reqBody respBody : Body)
    (l : List (String × BusinessEventConfig))
    (h : ∀ pc ∈ l, matchesEndpointPattern (method ++ " " ++ path) pc.1 = some false) :
    evLoop method path reqBody respBody l = Except.ok Option.none := by
  induction l with
  | nil => rfl
  | cons hd tl ih =>
    obtain ⟨p, ec⟩ := hd
    have hm := h (p, ec) (by simp)
    simp only [evLoop, hm]
    exact ih (fun pc hpc => h pc (by simp [hpc]))

theorem evLoop_first (method path : String) (reqBody respBody : Body)
    (pre : List (String × BusinessEventConfig)) (p : String) (ec : BusinessEventConfig)
    (post : List (String × BusinessEventConfig))
    (hpre : ∀ pc ∈ pre, matchesEndpointPattern (method ++ " " ++ path) pc.1 = some false)
    (hmatch : matchesEndpointPattern (method ++ " " ++ path) p = some true)
    (hpp : ¬ ec.extract_from_path.isEmpty →
      ∃ pps, extractPathParams path p = Except.ok pps) :
    ∃ ctx, evLoop method path reqBody respBody (pre ++ (p, ec) :: post)
      = Except.ok (some { event_type := ec.event_type, business_context := ctx }) := by
  induction pre with
  | nil =>
    simp only [List.nil_append, evLoop, hmatch]
    by_cases he : ec.extract_from_path.isEmpty
    · simp [he]
    · obtain ⟨pps, hpps⟩ := hpp he
      simp [he, hpps]
  | cons hd tl ih =>
    obtain ⟨q, qc⟩ := hd
    have hm := hpre (q, qc) (by simp)
    simp only [List.cons_append, evLoop, hm]
    exact ih (fun pc hpc => hpre pc (by simp [hpc]))

/-- C6: classification walks the configured `business_events` pairs in their
configured (insertion) order and yields the event of the first matching
pattern; when the mapping is empty or nothing matches it yields nothing, so
of two matching patterns the one configured earlier always wins. -/
theorem event_first_match (cfg : ObservabilityConfig) (method path : String)
    (reqBody respBody : Body) :
    ((∀ pc ∈ cfg.business_events,
        matchesEndpointPattern (method ++ " " ++ path) pc.1 = some false) →
      extractBusinessEvent cfg method path reqBody respBody = Except.ok Option.none) ∧
    (∀ pre p ec post, cfg.business_events = pre ++ (p, ec) :: post →
      (∀ pc ∈ pre, matchesEndpointPattern (method ++ " " ++ path) pc.1 = some false) →
      matchesEndpointPattern (method ++ " " ++ path) p = some true →
      (¬ ec.extract_from_path.isEmpty →
        ∃ pps, extractPathParams path p = Except.ok pps) →
      ∃ ctx, extractBusinessEvent cfg method path reqBody respBody
        = Except.ok (some { event_type := ec.event_type, business_context := ctx })) := by
  constructor
  · intro h
    unfold extractBusinessEvent
    by_cases he : cfg.business_events.isEmpty
    · simp [he]
    · simp only [he, if_false]
      exact evLoop_all_false method path reqBody respBody _ h
  · intro pre p ec post hsplit hpre hmatch hpp
    unfold extractBusinessEvent
    rw [hsplit]
    have he : (pre ++ (p, ec) :: post).isEmpty = false := by cases pre <;> rfl
    simp only [he, Bool.false_eq_true, if_false]
    exact evLoop_first method path reqBody respBody pre p ec post hpre hmatch hpp

/-- Witness for C6: both configured patterns match, and classification
returns the event of the earlier one. -/
theorem event_first_match_w :
    ∃ ctx, extractBusinessEvent cfgOverlap "GET" "/a/b" Body.none Body.none
      = Except.ok (some { event_type := "first", business_context := ctx }) := by
  have h := (event_first_match cfgOverlap "GET" "/a/b" Body.none Body.none).2
    [] "GET /a/\x7bx\x7d" ecFirst [("GET /a/b", ecSecond)] rfl
    (by intro pc hpc; simp at hpc)
    (by decide)
    (by intro h; exact absurd rfl h)
  exact h

/-! ## Claim theorems: correlation and construction -/

theorem find_filter_not (hs : List (String × String)) (k : String) :
    (hs.filter (fun p => !(lowerStr p.1 == lowerStr k))).find?
      (fun p => lowerStr p.1 == lowerStr k) = Option.none := by
  rw [List.find?_eq_none]
  intro p hp
  rw [List.mem_filter] at hp
  have h2 := hp.2
  simp only [Bool.not_eq_true'] at h2
  simp [h2]

theorem getHeader_setHeader (hs : List (String × String)) (k v : String) :
    getHeader (setHeader hs k v) k = some v := by
  unfold getHeader setHeader
  rw [List.find?_append, find_filter_not]
  simp

theorem captureRequest_correlation (cfg : ObservabilityConfig)
    (jl : List Nat → Option JVal) (req : Request) (cid : Option String) :
    (captureRequest cfg jl req cid).1.correlation_id = cid := by
  simp [captureRequest]

/-- C7: on the success path the outbound response always carries the
resolved correlation token under the configured header, and every emitted
record's correlation field equals that token; when the inbound request
carries a non-empty token under the header, the resolved token is exactly
the inbound one, so that same value rounds onto the response and record. -/
theorem correlation_roundtrip (cfg : ObservabilityConfig) (jl : List Nat → Option JVal)
    (req : Request) (resp : Response) (evt : Option EventData) (fresh : String)
    (dur : Nat) (c : String)
    (hfr : ¬ fresh = "")
    (hc0 : c = resolveCorrelation (getHeader req.headers cfg.correlation_id_header) fresh)
    (hevt : extractBusinessEvent cfg req.method req.path
        (captureRequest cfg jl req (some c)).1.body
        (captureResponse cfg jl resp dur).body = Except.ok evt) :
    ∃ resp2, (unifiedPipeline cfg jl req (Except.ok resp) fresh dur).2 = Except.ok resp2 ∧
      getHeader resp2.headers cfg.correlation_id_header = some c ∧
      (∀ t, getHeader req.headers cfg.correlation_id_header = some t → ¬ t = "" →
        c = t) ∧
      ∀ r ∈ mainRecords (unifiedPipeline cfg jl req (Except.ok resp) fresh dur).1,
        recCorrelation r = some c := by
  have hcne : ¬ c = "" := by
    rw [hc0]
    cases hg : getHeader req.headers cfg.correlation_id_header with
    | none => simpa [resolveCorrelation] using hfr
    | some s =>
      by_cases hs : s = ""
      · simpa [resolveCorrelation, hs] using hfr
      · simpa [resolveCorrelation, hs] using hs
  have htr : pyTruthyS (some c) = true := by simp [pyTruthyS, hcne]
  unfold unifiedPipeline
  rw [← hc0]
  refine ⟨{ resp with
      headers := setHeader resp.headers cfg.correlation_id_header c }, ?_, ?_, ?_, ?_⟩
  · simp only [dispatch, hevt, htr, if_true, Option.getD_some]
  · exact getHeader_setHeader resp.headers cfg.correlation_id_header c
  · intro t hg ht
    rw [hc0, hg]
    simp [resolveCorrelation, ht]
  · intro r hr
    simp only [dispatch, hevt] at hr
    rw [mainRecords_warns_append _ _ (captureRequest_warns cfg jl req (some c))
      (by simp [LogRecord.isWarn])] at hr
    simp at hr
    rw [hr]
    simp [recCorrelation, captureRequest]

/-- Witness for C7 at a concrete request carrying `X-Correlation-ID: abc123`. -/
theorem correlation_roundtrip_w :
    ∃ resp2, (unifiedPipeline cfgSvc jlNone reqCorr (Except.ok respBasic) "fresh" 5).2
        = Except.ok resp2 ∧
      getHeader resp2.headers cfgSvc.correlation_id_header = some "abc123" ∧
      (∀ t, getHeader reqCorr.headers cfgSvc.correlation_id_header = some t → ¬ t = "" →
        "abc123" = t) ∧
      ∀ r ∈ mainRecords (unifiedPipeline cfgSvc jlNone reqCorr
          (Except.ok respBasic) "fresh" 5).1,
        recCorrelation r = some "abc123" :=
  correlation_roundtrip cfgSvc jlNone reqCorr respBasic Option.none "fresh" 5 "abc123"
    (by decide) rfl rfl

/-- C8 counterexample: middleware construction succeeds even though the
configured endpoint pattern `"POSTfolders"` is malformed (no
`METHOD /path` shape); at request time such a pattern silently never
matches, so the error is not surfaced at construction. -/
theorem construction_malformed_cex :
    observabilityMiddlewareInit (some cfgMalformed) = Except.ok cfgMalformed ∧
    matchesEndpointPattern "POST /folders" "POSTfolders" = some false :=
  ⟨rfl, by decide⟩

theorem splitSp_no_space (l : List Char) (h : ¬ ' ' ∈ l) :
    splitSp l = (l, Option.none) := by
  induction l with
  | nil => rfl
  | cons c rest ih =>
    have hc : ¬ c = ' ' := fun hc => h (by simp [hc])
    have ih2 := ih (fun hm => h (by simp [hm]))
    simp [splitSp, hc, ih2]

/-- C8 (amended): a missing config, and (per the spec's model of the absent
`models.py`) an empty `service_name`, are fatal at construction; endpoint
patterns, however, are not validated at construction — any config is
accepted unchanged — and a pattern without the `METHOD /path` shape is
deferred to request time, where it simply never matches. -/
theorem config_error_handling :
    observabilityMiddlewareInit Option.none
        = Except.error "ObservabilityConfig is required" ∧
    (∀ c : ObservabilityConfig, c.service_name = "" →
      mkObservabilityConfig c = Except.error "service_name is required") ∧
    (∀ c : ObservabilityConfig, observabilityMiddlewareInit (some c) = Except.ok c) ∧
    (∀ ep pat : String, ¬ ' ' ∈ pat.data →
      matchesEndpointPattern ep pat = some false) := by
  refine ⟨rfl, ?_, fun c => rfl, ?_⟩
  · intro c hc
    simp [mkObservabilityConfig, hc]
  · intro ep pat hsp
    unfold matchesEndpointPattern matchesEndpointPatternL
    rw [splitSp_no_space pat.data hsp]
    rcases h : splitSp ep.data with ⟨a, b⟩
    cases b <;> rfl

/-- Witness for the amended C8. -/
theorem config_error_handling_w :
    mkObservabilityConfig { service_name := "" }
        = Except.error "service_name is required" ∧
    matchesEndpointPattern "GET /x" "NOSPACE" = some false :=
  ⟨config_error_handling.2.1 { service_name := "" } rfl,
   config_error_handling.2.2.2 "GET /x" "NOSPACE" (by decide)⟩

theorem substLoop_lit (rep : List Char) (s tail : List Char)
    (hs : s.all plainChar = true) :
    substLoop rep (s ++ tail) Option.none = s ++ substLoop rep tail Option.none := by
  induction s with
  | nil => rfl
  | cons c cs ih =>
    have hc : plainChar c = true ∧ cs.all plainChar = true := by
      simpa [List.all_cons] using hs
    have hbr : ¬ c = '\x7b' := by
      intro hcc
      rw [hcc] at hc
      simp [plainChar] at hc
    simp only [List.cons_append, substLoop, if_neg hbr, List.append_eq]
    rw [ih hc.2]

theorem substLoop_inBrace (rep : List Char) (n : List Char) (tail acc : List Char)
    (hn : ∀ c ∈ n, ¬ c = '\x7d') (hne : ¬ (n = [] ∧ acc = [])) :
    substLoop rep (n ++ '\x7d' :: tail) (some acc)
      = rep ++ substLoop rep tail Option.none := by
  induction n generalizing acc with
  | nil =>
    have hacc : ¬ acc = [] := fun h => hne ⟨rfl, h⟩
    have hacc2 : acc.isEmpty = false := by
      cases acc with
      | nil => exact absurd rfl hacc
      | cons x xs => rfl
    simp [substLoop, hacc2]
  | cons c cs ih =>
    have hc : ¬ c = '\x7d' := hn c (by simp)
    simp only [List.cons_append, substLoop, if_neg hc]
    exact ih (c :: acc) (fun d hd => hn d (by simp [hd])) (by simp)

theorem substLoop_openBrace (rep xs : List Char) :
    substLoop rep ('\x7b' :: xs) Option.none = substLoop rep xs (some []) := by
  simp [substLoop]

theorem substLoop_render (rep : List Char) (t : List Seg) (hw : wfTemplate t = true) :
    substLoop rep (renderTemplate t) Option.none = substTarget rep t := by
  induction t with
  | nil => rfl
  | cons seg rest ih =>
    have hsp : wfSeg seg = true ∧ wfTemplate rest = true := by
      simpa [wfTemplate, List.all_cons] using hw
    cases seg with
    | lit s =>
      simp only [renderTemplate, substTarget]
      rw [substLoop_lit rep s _ hsp.1, ih hsp.2]
    | pvar n =>
      have h1 := hsp.1
      simp only [wfSeg, Bool.and_eq_true, List.all_eq_true] at h1
      have hn : ∀ c ∈ n, ¬ c = '\x7d' := by
        intro c hc hcc
        have := h1.2 c hc
        simp [hcc] at this
      have hnil : ¬ n = [] := by
        intro h
        rw [h] at h1
        simp at h1
      simp only [renderTemplate, substTarget]
      rw [substLoop_openBrace, substLoop_inBrace rep n _ [] hn (fun h => hnil h.1),
        ih hsp.2]

theorem parseLoop_plain (c : Char) (rest : List Char) (acc : List RItem)
    (hc : plainChar c = true) :
    parseLoop (c :: rest) PMode.norm acc
      = parseLoop rest PMode.norm (RItem.one (CharCls.lit c) :: acc) := by
  simp only [parseLoop]
  split_ifs <;> try rfl
  all_goals exfalso
  all_goals simp_all [plainChar]

theorem parseLoop_clsrun (rest : List Char) (acc : List RItem) :
    parseLoop ('[' :: '^' :: '/' :: ']' :: '+' :: rest) PMode.norm acc
      = parseLoop rest PMode.norm (RItem.plus (CharCls.cls true [('/', '/')]) :: acc) := by
  simp [parseLoop, capTail]

theorem parseLoop_litRun (s rest : List Char) (acc : List RItem)
    (hs : s.all plainChar = true) :
    parseLoop (s ++ rest) PMode.norm acc
      = parseLoop rest PMode.norm
          ((s.map (fun c => RItem.one (CharCls.lit c))).reverse ++ acc) := by
  induction s generalizing acc with
  | nil => simp
  | cons c cs ih =>
    have hc : plainChar c = true ∧ cs.all plainChar = true := by
      simpa [List.all_cons] using hs
    rw [List.cons_append, parseLoop_plain c _ _ hc.1, ih _ hc.2]
    simp [List.append_assoc]

theorem parseLoop_render (t : List Seg) (acc : List RItem) (hw : wfTemplate t = true) :
    parseLoop (substTarget plainRep t ++ ['$']) PMode.norm acc
      = some (acc.reverse ++ itemsOfTemplate t) := by
  induction t generalizing acc with
  | nil => simp [substTarget, parseLoop, itemsOfTemplate]
  | cons seg rest ih =>
    have hsp : wfSeg seg = true ∧ wfTemplate rest = true := by
      simpa [wfTemplate, List.all_cons] using hw
    cases seg with
    | lit s =>
      simp only [substTarget, itemsOfTemplate, List.append_assoc]
      rw [parseLoop_litRun s _ _ hsp.1, ih _ hsp.2]
      simp [List.reverse_append, List.append_assoc]
    | pvar n =>
      simp only [substTarget, itemsOfTemplate, List.append_assoc]
      rw [show plainRep ++ (substTarget plainRep rest ++ ['$'])
          = '[' :: '^' :: '/' :: ']' :: '+' :: (substTarget plainRep rest ++ ['$']) from rfl]
      rw [parseLoop_clsrun, ih _ hsp.2]
      simp

theorem matchCaps_one_cons (c : CharCls) (rest : List RItem) (a : Char)
    (input : List Char) :
    matchCaps (RItem.one c :: rest) (a :: input)
      = if clsMatch c a then matchCaps rest input else Option.none := rfl

theorem matchCaps_plus (c : CharCls) (rest : List RItem) (input : List Char) :
    matchCaps (RItem.plus c :: rest) input
      = (greedyRems (clsMatch c) input).findSome? (fun rem => matchCaps rest rem) := rfl

theorem findSome_isSome {α β : Type} (f : α → Option β) (l : List α) :
    (l.findSome? f).isSome = l.any (fun x => (f x).isSome) := by
  induction l with
  | nil => rfl
  | cons a l ih =>
    cases h : f a with
    | none => simp [List.findSome?, h, ih]
    | some b => simp [List.findSome?, h]

theorem any_reverse {α : Type} (p : α → Bool) (l : List α) :
    l.reverse.any p = l.any p := by
  induction l with
  | nil => rfl
  | cons a l ih => simp [List.any_append, ih, Bool.or_comm]

theorem matchB_nil (input : List Char) : matchB [] input = specMatchEnd [] input := by
  cases input with
  | nil => rfl
  | cons a tl =>
    cases tl with
    | nil =>
      by_cases h : a = '\n'
      · simp [matchB, matchCaps, matchCapsF, specMatchEnd, h]
      · simp [matchB, matchCaps, matchCapsF, specMatchEnd, h]
    | cons b bs => rfl

theorem matchB_one_nil (c : CharCls) (rest : List RItem) :
    matchB (RItem.one c :: rest) [] = false := rfl

theorem matchB_one_cons (c : CharCls) (rest : List RItem) (a : Char)
    (input : List Char) :
    matchB (RItem.one c :: rest) (a :: input) = (clsMatch c a && matchB rest input) := by
  rw [matchB, matchCaps_one_cons]
  by_cases h : clsMatch c a = true
  · simp [h, matchB]
  · simp [h, matchB]

theorem matchB_plus (c : CharCls) (rest : List RItem) (input : List Char) :
    matchB (RItem.plus c :: rest) input
      = (runsRems (clsMatch c) input).any (fun rem => matchB rest rem) := by
  simp only [matchB, matchCaps_plus, findSome_isSome, greedyRems, any_reverse]

theorem matchB_litRun (s : List Char) (items : List RItem) (input : List Char) :
    matchB ((s.map (fun c => RItem.one (CharCls.lit c))) ++ items) input
      = (startsWithL s input && matchB items (input.drop s.length)) := by
  induction s generalizing input with
  | nil => simp [startsWithL]
  | cons c cs ih =>
    cases input with
    | nil =>
      rw [List.map_cons, List.cons_append]
      simp [startsWithL, matchB_one_nil]
    | cons a input2 =>
      rw [List.map_cons, List.cons_append, matchB_one_cons, ih input2]
      by_cases hac : a = c
      · subst hac
        simp [clsMatch, startsWithL, Bool.and_assoc]
      · have h1 : (a == c) = false := by simp [hac]
        have hca : ¬ c = a := fun h => hac h.symm
        have h2 : (c == a) = false := by simp [hca]
        simp [clsMatch, startsWithL, h1, h2]

theorem matchB_template (t : List Seg) (input : List Char) :
    matchB (itemsOfTemplate t) input = specMatchEnd t input := by
  induction t generalizing input with
  | nil => simp [itemsOfTemplate, matchB_nil]
  | cons seg rest ih =>
    cases seg with
    | lit s =>
      rw [itemsOfTemplate, matchB_litRun, specMatchEnd, ih]
    | pvar n =>
      rw [itemsOfTemplate, matchB_plus, specMatchEnd]
      have hp : clsMatch (CharCls.cls true [('/', '/')]) = fun c => !(c == '/') := by
        funext c
        by_cases h : c = '/'
        · subst h
          simp [clsMatch]
        · have h5 : (c == '/') = false := by simp [h]
          have h6 : ¬ ('/' ≤ c ∧ c ≤ '/') := fun hc => h (le_antisymm hc.2 hc.1)
          simp only [clsMatch, if_true, List.any_cons, List.any_nil, Bool.or_false, h5,
            Bool.not_false]
          by_cases h7 : '/' ≤ c
          · have h8 : ¬ c ≤ '/' := fun h9 => h6 ⟨h7, h9⟩
            simp [h7, h8]
          · simp [h7]
      rw [hp]
      congr 1
      funext rem
      rw [ih]

/-! List bookkeeping for relating the `$`-with-trailing-newline semantics
to plain full-consumption matching of the path with its last character
dropped. -/

theorem dropLast_cons2 (a b : Char) (l : List Char) :
    (a :: b :: l).dropLast = a :: (b :: l).dropLast := rfl

theorem startsWithL_length (s l : List Char) (h : startsWithL s l = true) :
    s.length ≤ l.length := by
  induction s generalizing l with
  | nil => simp
  | cons a as ih =>
    cases l with
    | nil => simp [startsWithL] at h
    | cons b bs =>
      simp only [startsWithL, Bool.and_eq_true] at h
      have := ih bs h.2
      simp only [List.length_cons]
      omega

theorem startsWithL_of_dropLast (s l : List Char) (h : startsWithL s l.dropLast = true) :
    startsWithL s l = true := by
  induction s generalizing l with
  | nil => rfl
  | cons a as ih =>
    cases l with
    | nil => simp [startsWithL] at h
    | cons b bs =>
      cases bs with
      | nil => simp [startsWithL] at h
      | cons c cs =>
        rw [dropLast_cons2] at h
        simp only [startsWithL, Bool.and_eq_true] at h ⊢
        exact ⟨h.1, ih (c :: cs) h.2⟩

theorem startsWithL_dropLast (s l : List Char) (h : startsWithL s l = true)
    (hne : ¬ l.drop s.length = []) : startsWithL s l.dropLast = true := by
  induction s generalizing l with
  | nil => rfl
  | cons a as ih =>
    cases l with
    | nil => simp [startsWithL] at h
    | cons b bs =>
      simp only [startsWithL, Bool.and_eq_true] at h
      have hne2 : ¬ bs.drop as.length = [] := by simpa using hne
      cases bs with
      | nil => simp at hne2
      | cons c cs =>
        rw [dropLast_cons2]
        simp only [startsWithL, Bool.and_eq_true]
        exact ⟨h.1, ih (c :: cs) h.2 hne2⟩

theorem getLast?_drop (n : Nat) (l : List Char) (h : ¬ l.drop n = []) :
    (l.drop n).getLast? = l.getLast? := by
  induction n generalizing l with
  | zero => rfl
  | succ m ih =>
    cases l with
    | nil => simp at h
    | cons a tl =>
      rw [List.drop_succ_cons] at h ⊢
      rw [ih tl h]
      have htl : ¬ tl = [] := by
        intro he
        rw [he] at h
        simp at h
      cases tl with
      | nil => exact absurd rfl htl
      | cons b bs => rfl

theorem dropLast_drop_comm (n : Nat) (l : List Char) :
    (l.drop n).dropLast = l.dropLast.drop n := by
  induction n generalizing l with
  | zero => rfl
  | succ m ih =>
    cases l with
    | nil => rfl
    | cons a tl =>
      rw [List.drop_succ_cons, ih tl]
      cases tl with
      | nil => simp
      | cons b bs =>
        rw [dropLast_cons2, List.drop_succ_cons]

theorem runsRems_mem_drop (p : Char → Bool) (l rem : List Char)
    (h : rem ∈ runsRems p l) : ∃ n, rem = l.drop (n + 1) := by
  induction l with
  | nil => simp [runsRems] at h
  | cons a tl ih =>
    by_cases hp : p a
    · simp only [runsRems, if_pos hp] at h
      rcases List.mem_cons.mp h with he | hm
      · exact ⟨0, by simp [he]⟩
      · obtain ⟨n, hn⟩ := ih hm
        exact ⟨n + 1, by simp [hn]⟩
    · simp [runsRems, hp] at h

theorem runsRems_dropLast (p : Char → Bool) (l : List Char) :
    runsRems p l.dropLast
      = ((runsRems p l).filter (fun r => !r.isEmpty)).map List.dropLast := by
  induction l with
  | nil => rfl
  | cons a tl ih =>
    cases tl with
    | nil => by_cases hp : p a <;> simp [runsRems, hp]
    | cons b bs =>
      rw [dropLast_cons2]
      by_cases hp : p a
      · rw [show runsRems p (a :: (b :: bs).dropLast)
            = (b :: bs).dropLast :: runsRems p ((b :: bs).dropLast) from by
          simp [runsRems, hp]]
        rw [show runsRems p (a :: b :: bs) = (b :: bs) :: runsRems p (b :: bs) from by
          simp [runsRems, hp]]
        rw [ih]
        simp
      · simp [runsRems, hp]

theorem any_or_distrib {α : Type} (l : List α) (f g : α → Bool) :
    l.any (fun x => f x || g x) = (l.any f || l.any g) := by
  induction l with
  | nil => rfl
  | cons a tl ih =>
    simp only [List.any_cons, ih]
    cases f a <;> cases g a <;> simp

theorem any_const_and {α : Type} (l : List α) (b : Bool) (f : α → Bool) :
    l.any (fun x => b && f x) = (b && l.any f) := by
  cases b <;> simp

theorem any_filter_eq {α : Type} (l : List α) (q f : α → Bool) :
    (l.filter q).any f = l.any (fun x => q x && f x) := by
  induction l with
  | nil => rfl
  | cons a tl ih =>
    by_cases hq : q a = true
    · simp [List.filter_cons, hq, ih]
    · have hq2 : q a = false := by simpa using hq
      simp [List.filter_cons, hq2, ih]

theorem any_congr_mem {α : Type} (l : List α) (f g : α → Bool)
    (h : ∀ x ∈ l, f x = g x) : l.any f = l.any g := by
  induction l with
  | nil => rfl
  | cons a tl ih =>
    simp only [List.any_cons]
    rw [h a (by simp), ih (fun x hx => h x (by simp [hx]))]

theorem lastIsNl_nil : lastIsNl [] = false := rfl

theorem any_lastNl_dropLast (p : Char → Bool) (f : List Char → Bool) (l : List Char) :
    (runsRems p l).any (fun rem => lastIsNl rem && f rem.dropLast)
      = (lastIsNl l && (runsRems p l.dropLast).any f) := by
  rw [runsRems_dropLast p l, List.any_map, any_filter_eq, ← any_const_and]
  apply any_congr_mem
  intro rem hrem
  cases hre : rem with
  | nil => simp [lastIsNl]
  | cons a tl =>
    have hnl : lastIsNl rem = lastIsNl l := by
      obtain ⟨n, hn⟩ := runsRems_mem_drop p l rem hrem
      unfold lastIsNl
      rw [hn, getLast?_drop]
      rw [← hn, hre]
      simp
    rw [← hre, hnl]
    simp [hre, Function.comp]

theorem specMatchEnd_eq (t : List Seg) (input : List Char) :
    specMatchEnd t input
      = (specMatch t input || (lastIsNl input && specMatch t input.dropLast)) := by
  induction t generalizing input with
  | nil =>
    cases input with
    | nil => rfl
    | cons a tl =>
      cases tl with
      | nil => simp [specMatchEnd, specMatch, lastIsNl, List.getLast?]
      | cons b bs =>
        have hd : (a :: b :: bs).dropLast = a :: (b :: bs).dropLast := rfl
        simp [specMatchEnd, specMatch, hd]
  | cons seg rest ih =>
    cases seg with
    | lit s =>
      simp only [specMatchEnd, specMatch]
      by_cases hst : startsWithL s input = true
      · rw [hst, ih]
        by_cases hd : input.drop s.length = []
        · rw [hd]
          cases hinput : input with
          | nil => simp [lastIsNl_nil, lastIsNl]
          | cons a tl =>
            have hlen1 := startsWithL_length s input hst
            have hlen2 : input.length ≤ s.length := by
              have := List.drop_eq_nil_iff.mp hd
              omega
            have hfalse : startsWithL s (a :: tl).dropLast = false := by
              cases hsw : startsWithL s (a :: tl).dropLast
              · rfl
              · exfalso
                have hl3 := startsWithL_length s _ hsw
                rw [List.length_dropLast] at hl3
                rw [hinput] at hlen1 hlen2
                simp only [List.length_cons] at hl3 hlen1 hlen2
                omega
            simp [hfalse, lastIsNl_nil]
        · have e1 : lastIsNl (input.drop s.length) = lastIsNl input := by
            unfold lastIsNl
            rw [getLast?_drop _ _ hd]
          have e2 : (input.drop s.length).dropLast = input.dropLast.drop s.length :=
            dropLast_drop_comm _ _
          have e3 : startsWithL s input.dropLast = true :=
            startsWithL_dropLast s input hst hd
          rw [e1, e2, e3]
          cases specMatch rest (input.drop s.length) <;>
            cases lastIsNl input <;>
            cases specMatch rest (input.dropLast.drop s.length) <;> rfl
      · have hst2 : startsWithL s input = false := by simpa using hst
        rw [hst2]
        have h4 : startsWithL s input.dropLast = false := by
          cases hsw : startsWithL s input.dropLast
          · rfl
          · exact absurd (startsWithL_of_dropLast s input hsw) (by simp [hst2])
        simp [h4]
    | pvar nm =>
      simp only [specMatchEnd, specMatch]
      have h1 : (runsRems (fun c => !(c == '/')) input).any
            (fun rem => specMatchEnd rest rem)
          = (runsRems (fun c => !(c == '/')) input).any
            (fun rem => specMatch rest rem
              || (lastIsNl rem && specMatch rest rem.dropLast)) :=
        any_congr_mem _ _ _ (fun rem _ => ih rem)
      rw [h1, any_or_distrib, any_lastNl_dropLast]

theorem splitSp_space (m path : List Char) (hm : ¬ ' ' ∈ m) :
    splitSp (m ++ ' ' :: path) = (m, some path) := by
  induction m with
  | nil => simp [splitSp]
  | cons c cs ih =>
    have hc : ¬ c = ' ' := fun h => hm (by simp [h])
    have ih2 := ih (fun h => hm (by simp [h]))
    simp [splitSp, hc, ih2]

/-- C5 counterexample: the code does not match non-placeholder characters
literally — the pattern text is interpreted as a regular expression, so the
`.` in `"GET /a.b"` matches the `x` of `GET /axb`, which the claim says it
must not. -/
theorem literal_match_cex :
    matchesEndpointPattern "GET /axb" "GET /a.b" = some true := by decide

/-- C5 (amended): for patterns whose path template consists of literal
chunks of regex-neutral characters and `\x7bidentifier\x7d` placeholders,
matching behaves as follows: the method must be equal (case-sensitively),
each placeholder matches exactly one non-empty path segment never crossing
`/`, every other template character matches only itself — and, because
Python's `$` also matches just before a final newline, a path consisting
of a matching path plus one trailing newline is accepted as well.
Characters with regex meaning (such as `.`) are excluded from the
templates, since the code gives them their regex interpretation instead of
matching them literally. -/
theorem endpoint_match_spec (m m2 path : List Char) (t : List Seg)
    (hw : wfTemplate t = true) (hm : ¬ ' ' ∈ m) (hm2 : ¬ ' ' ∈ m2) :
    matchesEndpointPatternL (m ++ ' ' :: path) (m2 ++ ' ' :: renderTemplate t)
      = some ((m == m2) &&
          (specMatch t path || (lastIsNl path && specMatch t path.dropLast))) := by
  unfold matchesEndpointPatternL
  rw [splitSp_space m path hm, splitSp_space m2 _ hm2]
  dsimp only
  by_cases hmm2 : m = m2
  · rw [if_pos hmm2]
    rw [substLoop_render plainRep t hw]
    rw [show parseAnchored ('^' :: (substTarget plainRep t ++ ['$']))
        = parseLoop (substTarget plainRep t ++ ['$']) PMode.norm [] from rfl]
    rw [parseLoop_render t [] hw]
    simp only [List.reverse_nil, List.nil_append]
    rw [show (matchCaps (itemsOfTemplate t) path).isSome
        = matchB (itemsOfTemplate t) path from rfl]
    rw [matchB_template, specMatchEnd_eq]
    have : (m == m2) = true := by simp [hmm2]
    simp [this]
  · rw [if_neg hmm2]
    have : (m == m2) = false := by simp [hmm2]
    simp [this]

/-- Witness for the amended C5 at the spec's own example. -/
theorem endpoint_match_spec_w :
    matchesEndpointPatternL ("DELETE".data ++ ' ' :: "/folders/42".data)
      ("DELETE".data ++ ' ' :: renderTemplate tFolders) = some true := by
  have h := endpoint_match_spec "DELETE".data "DELETE".data "/folders/42".data
    tFolders (by decide) (by decide) (by decide)
  rw [h]
  decide
